import Mathlib

/-!
Shallow embedding of the Solana rent-collector core: the wallet store
(src/src/wallet-manager.ts), the retry policy, token-account discovery and the
per-wallet burn/close/sweep pipeline (src/src/rent-collector.ts, provided as
src/unnamed/part_004).  External collaborators (filesystem, key derivation,
the RPC ledger client) are modelled as explicit oracles; machine numbers are
lamport amounts, represented as Nat.
-/

namespace SRC

/-- One entry of the wallet store, mirroring WalletInfo from src/src/types.ts. -/
structure WalletInfo where
  privateKey : String
  publicKey : String
  balance : Nat
  rentExemptBalance : Nat
  rentAmount : Nat
  canClose : Bool
deriving Repr, DecidableEq

/-- Whether the pattern list is a prefix of the character list. -/
def charsStartWith : List Char → List Char → Bool
  | [], _ => true
  | _ :: _, [] => false
  | p :: ps, x :: xs => p = x && charsStartWith ps xs

/-- Whether the pattern occurs as a contiguous run of the character list. -/
def charsContainSub (pat : List Char) : List Char → Bool
  | [] => charsStartWith pat []
  | x :: xs => charsStartWith pat (x :: xs) || charsContainSub pat xs

/-- String containment test, modelling the JavaScript method String.includes,
    over the character lists of the two strings. -/
def includesSubstr (s pat : String) : Bool :=
  charsContainSub pat.data s.data

/-- Splitting a character list on one separator character, modelling the
    JavaScript call String.split with a one-character separator. -/
def splitOnChar (c : Char) : List Char → List (List Char)
  | [] => [[]]
  | x :: xs =>
    let rest := splitOnChar c xs
    if x = c then [] :: rest
    else match rest with
      | [] => [[x]]
      | r :: rs => (x :: r) :: rs

/-- Trimming leading and trailing whitespace of a character list, modelling
    the JavaScript method String.trim. -/
def trimChars (l : List Char) : List Char :=
  ((l.dropWhile Char.isWhitespace).reverse.dropWhile Char.isWhitespace).reverse

/-- The lines of a wallet file: split on newline, trim, drop empty lines
    (wallet-manager.ts line 28). -/
def fileLines (content : String) : List String :=
  (((splitOnChar '\n' content.data).map trimChars).map String.mk).filter
    (fun l => decide (l.length > 0))

/-- Section state of the structured wallet-file format parse loop
    (wallet-manager.ts lines 40-68). -/
inductive FileSection
  | blank | privKeys | walletAddrs | pairs
deriving Repr, DecidableEq

/-- Structured-format classification loop (wallet-manager.ts lines 42-68):
    walks the lines keeping the current section, collecting candidate private
    keys (trimmed length 80-90) and addresses (trimmed length 40-50); in the
    paired section an address line is kept only when a private key was already
    seen. -/
def classifyStructured : List String → FileSection → List String → List String →
    List String × List String
  | [], _, pks, addrs => (pks.reverse, addrs.reverse)
  | l :: rest, cur, pks, addrs =>
    if l = "PRIVATE KEYS:" then classifyStructured rest .privKeys pks addrs
    else if l = "WALLET ADDRESSES:" then classifyStructured rest .walletAddrs pks addrs
    else if l = "PRIVATE KEYS / ADDRESS:" then classifyStructured rest .pairs pks addrs
    else match cur with
      | .privKeys =>
        if 80 ≤ l.length ∧ l.length ≤ 90 then classifyStructured rest cur (l :: pks) addrs
        else classifyStructured rest cur pks addrs
      | .walletAddrs =>
        if 40 ≤ l.length ∧ l.length ≤ 50 then classifyStructured rest cur pks (l :: addrs)
        else classifyStructured rest cur pks addrs
      | .pairs =>
        if 80 ≤ l.length ∧ l.length ≤ 90 then classifyStructured rest cur (l :: pks) addrs
        else if (40 ≤ l.length ∧ l.length ≤ 50) ∧ pks ≠ [] then
          classifyStructured rest cur pks (l :: addrs)
        else classifyStructured rest cur pks addrs
      | .blank => classifyStructured rest cur pks addrs

/-- Extraction of candidate private keys and addresses from the text of a
    wallet file (wallet-manager.ts lines 30-75): structured format when one of
    the section headers occurs anywhere in the content, otherwise the simple
    format keeping every line of length 80-90. -/
def extractKeys (content : String) : List String × List String :=
  let lines := fileLines content
  if includesSubstr content "PRIVATE KEYS:" || includesSubstr content "WALLET ADDRESSES:"
      || includesSubstr content "PRIVATE KEYS / ADDRESS:" then
    classifyStructured lines .blank [] []
  else
    (lines.filter (fun l => decide (80 ≤ l.length ∧ l.length ≤ 90)), [])

/-- One entry of the uniqueWallets map of loadWalletsFromFile
    (wallet-manager.ts line 87). -/
structure KeyEntry where
  privateKey : String
  publicKey : String
deriving Repr, DecidableEq

/-- Insertion-ordered map update, modelling the JavaScript method Map.set
    keyed by a String field: when the key is present the stored value is
    replaced in place, otherwise the new entry is appended. -/
def upsertBy (key : α → String) (entries : List α) (a : α) : List α :=
  if entries.any (fun x => key x == key a) then
    entries.map (fun x => if key x == key a then a else x)
  else entries ++ [a]

/-- Body of the dedup loop of loadWalletsFromFile for one parsed private key
    (wallet-manager.ts lines 95-123).  The external derivation
    Keypair.fromSecretKey (composed with bs58.decode) is the parameter derive;
    none models a decoding failure, which aborts the whole load.  A key whose
    derived public key is already present, or whose private key string is
    already present, is dropped (counted as a duplicate, not an error). -/
def dedupStep (derive : String → Option String) (entries : List KeyEntry) (pk : String) :
    Option (List KeyEntry) :=
  match derive pk with
  | none => none
  | some pub =>
    if entries.any (fun e => e.publicKey == pub) then some entries
    else if entries.any (fun e => e.privateKey == pk) then some entries
    else some (upsertBy KeyEntry.publicKey entries (KeyEntry.mk pk pub))

/-- The dedup loop over all parsed private keys (wallet-manager.ts
    lines 95-123). -/
def dedupAll (derive : String → Option String) :
    List KeyEntry → List String → Option (List KeyEntry)
  | entries, [] => some entries
  | entries, pk :: rest =>
    match dedupStep derive entries pk with
    | none => none
    | some entries2 => dedupAll derive entries2 rest

/-- The entry seen by the uniqueWallets map for an existing store record
    (wallet-manager.ts lines 91-93). -/
def entryOf (w : WalletInfo) : KeyEntry :=
  KeyEntry.mk w.privateKey w.publicKey

/-- Seeding of the uniqueWallets map with the existing store records
    (wallet-manager.ts lines 91-93). -/
def seededEntries (base : List WalletInfo) : List KeyEntry :=
  base.foldl (fun acc w => upsertBy KeyEntry.publicKey acc (entryOf w)) []

/-- The fresh store record rebuilt from one map entry (wallet-manager.ts
    lines 139-146): identity kept, every discovery field reset. -/
def mkFreshWallet (e : KeyEntry) : WalletInfo :=
  WalletInfo.mk e.privateKey e.publicKey 0 0 0 false

/-- Model of WalletManager.loadWalletsFromFile (wallet-manager.ts
    lines 19-154) acting on the current store: parse the content, fail when no
    candidate private key is found, optionally clear the store, seed the
    uniqueWallets map with the existing records, run the dedup loop, and
    rebuild the whole store from the map with every discovery field reset
    (balance 0, rentExemptBalance 0, rentAmount 0, canClose false). -/
def loadWalletsFromFile (derive : String → Option String) (store : List WalletInfo)
    (content : String) (clearExisting : Bool) : Except String (List WalletInfo) :=
  if (extractKeys content).1 = [] then .error "No valid private keys found in file"
  else
    match dedupAll derive (seededEntries (if clearExisting then [] else store))
        (extractKeys content).1 with
    | none => .error "Invalid private key"
    | some entries => .ok (entries.map mkFreshWallet)

/-- In-place update of one position of a list, used to model assignment to
    an array slot. -/
def listModify : List α → Nat → (α → α) → List α
  | [], _, _ => []
  | a :: l, 0, f => f a :: l
  | a :: l, n + 1, f => a :: listModify l n f

/-- Model of WalletManager.updateWalletInfo (wallet-manager.ts lines 166-176):
    in range, replace the four discovery fields of the indexed record; out of
    range, leave the store unchanged. -/
def updateWalletInfo (ws : List WalletInfo) (index : Int)
    (balance rentExemptBalance rentAmount : Nat) (canClose : Bool) : List WalletInfo :=
  if 0 ≤ index ∧ index < (ws.length : Int) then
    listModify ws index.toNat (fun w =>
      { w with balance := balance, rentExemptBalance := rentExemptBalance,
               rentAmount := rentAmount, canClose := canClose })
  else ws

/-- Model of WalletManager.getWallet (wallet-manager.ts lines 181-183):
    the indexed record in range, null out of range. -/
def getWallet (ws : List WalletInfo) (index : Int) : Option WalletInfo :=
  if 0 ≤ index ∧ index < (ws.length : Int) then ws.get? index.toNat else none

/-- Rate-limit error signature test (rent-collector line 570): the message
    contains 429 or Too Many Requests. -/
def isRateLimitMessage (msg : String) : Bool :=
  includesSubstr msg "429" || includesSubstr msg "Too Many Requests"

/-- Result of a retried remote call: the final outcome together with the list
    of backoff delays that were slept, in order. -/
structure RetryOutcome (α : Type) where
  result : Except String α
  delays : List Nat
deriving Repr

/-- Loop body of retryWithBackoff (rent-collector lines 561-580).  The remote
    call is the oracle fn, giving the outcome of each attempt; remaining is
    the number of attempts still allowed after the current one (so it starts
    at maxRetries and reaching 0 corresponds to attempt === maxRetries, where
    the last error is rethrown).  On a rate-limit error the loop sleeps
    baseDelay * 2 ^ attempt and continues; on any other error it rethrows at
    once. -/
def retryLoop (fn : Nat → Except String α) (baseDelay : Nat) :
    Nat → Nat → RetryOutcome α
  | attempt, remaining =>
    match fn attempt with
    | .ok v => RetryOutcome.mk (.ok v) []
    | .error e =>
      match remaining with
      | 0 => RetryOutcome.mk (.error e) []
      | remaining2 + 1 =>
        if isRateLimitMessage e then
          let rest := retryLoop fn baseDelay (attempt + 1) remaining2
          RetryOutcome.mk rest.result (baseDelay * 2 ^ attempt :: rest.delays)
        else RetryOutcome.mk (.error e) []

/-- Model of RentCollector.retryWithBackoff (rent-collector lines 556-582);
    the source defaults are maxRetries 3 and baseDelay 1000. -/
def retryWithBackoff (fn : Nat → Except String α) (maxRetries baseDelay : Nat) :
    RetryOutcome α :=
  retryLoop fn baseDelay 0 maxRetries

/-- A token account as it appears in a remote query response; parsedOwner is
    the owner field of the parsed token data, used by the filters of discovery
    methods 2 and 3; programOwner is the owning token program. -/
structure TokenAccountView where
  pubkey : String
  lamports : Nat
  dataLen : Nat
  programOwner : String
  parsedOwner : String
deriving Repr, DecidableEq

/-- The five remote queries issued by RentCollector.getTokenAccounts (methods
    1 to 3, rent-collector lines 614-769); each field is the post-retry
    outcome of one RPC call, an error modelling a thrown failure. -/
structure DiscoveryOracle where
  byOwnerStd : Except String (List TokenAccountView)
  byOwner2022 : Except String (List TokenAccountView)
  parsedProgramStd : Except String (List TokenAccountView)
  parsedByOwnerStd : Except String (List TokenAccountView)
  parsedByOwner2022 : Except String (List TokenAccountView)

/-- Method 1 of getTokenAccounts (lines 624-650): getTokenAccountsByOwner for
    the standard and the 2022 token program inside one try block, so a failure
    of the second call keeps the records already pushed by the first, and a
    failure of the first call skips both. -/
def method1 (o : DiscoveryOracle) : List TokenAccountView :=
  match o.byOwnerStd with
  | .error _ => []
  | .ok l1 =>
    match o.byOwner2022 with
    | .error _ => l1
    | .ok l2 => l1 ++ l2

/-- Method 2 of getTokenAccounts (lines 653-692): getParsedProgramAccounts on
    the standard token program, keeping records whose parsed owner equals the
    wallet. -/
def method2 (o : DiscoveryOracle) (owner : String) : List TokenAccountView :=
  match o.parsedProgramStd with
  | .error _ => []
  | .ok l => l.filter (fun a => a.parsedOwner == owner)

/-- Method 3 of getTokenAccounts (lines 695-753): getParsedTokenAccountsByOwner
    for both programs inside one try block, each filtered by parsed owner
    equality; a failure of the second call keeps the records of the first. -/
def method3 (o : DiscoveryOracle) (owner : String) : List TokenAccountView :=
  match o.parsedByOwnerStd with
  | .error _ => []
  | .ok l1 =>
    let f1 := l1.filter (fun a => a.parsedOwner == owner)
    match o.parsedByOwner2022 with
    | .error _ => f1
    | .ok l2 => f1 ++ l2.filter (fun a => a.parsedOwner == owner)

/-- Deduplication of the combined discovery results by account public key
    (lines 756-759): a JavaScript Map keyed by pubkey, so the first occurrence
    fixes the position and a later duplicate only replaces the stored value. -/
def dedupByPubkey (l : List TokenAccountView) : List TokenAccountView :=
  l.foldl (upsertBy TokenAccountView.pubkey) []

/-- Model of RentCollector.getTokenAccounts (lines 614-769): concatenate the
    contributions of the three methods and deduplicate by pubkey. -/
def getTokenAccounts (o : DiscoveryOracle) (owner : String) : List TokenAccountView :=
  dedupByPubkey (method1 o ++ method2 o owner ++ method3 o owner)

/-- Model of RentCollector.canCloseAccount (lines 596-600): a token account is
    eligible exactly when its lamport balance is positive; the rent-exempt
    threshold is ignored. -/
def canCloseAccount (balance _rentExemptBalance : Nat) : Bool :=
  decide (balance > 0)

/-- Model of RentCollector.calculateRentAmount (lines 605-609): the full
    lamport balance; the rent-exempt threshold is ignored. -/
def calculateRentAmount (balance _rentExemptBalance : Nat) : Nat :=
  balance

/-- An instruction of a transaction submitted by the pipeline. -/
inductive Instr
  | burnIx (account mint : String) (amount : Nat)
  | closeIx (account dest : String)
  | transferIx (source dest : String) (lamports : Nat)
deriving Repr, DecidableEq

/-- The pipeline step a transaction submission belongs to: the close loop of
    step 1, the standalone burnAllTokens pass, or the final SOL sweep. -/
inductive Phase
  | closingPhase | burnPhase | sweepPhase
deriving Repr, DecidableEq

/-- An observable event of a pipeline run: a token-account discovery query or
    a transaction submission (with its instruction list and whether
    sendAndConfirmTransaction succeeded). -/
inductive Event
  | discoverEv (owner : String)
  | submitEv (phase : Phase) (instrs : List Instr) (ok : Bool)
deriving Repr, DecidableEq

/-- The state of an account as returned by connection.getAccountInfo;
    tokenAmount is the u64 read at offset 64 of the raw data, meaningful when
    dataLen is at least 165, and mint is the key in the first 32 bytes. -/
structure AccountView where
  lamports : Nat
  dataLen : Nat
  mint : String
  tokenAmount : Nat
  programOwner : String
deriving Repr, DecidableEq

/-- The external ledger interface used by the per-wallet pipeline.  Read calls
    are modelled as total post-retry responses; a submission is modelled by a
    success predicate over the submitted instruction list (false standing for
    a thrown, non-recovered error of sendAndConfirmTransaction). -/
structure Ledger where
  discovery : String → DiscoveryOracle
  accountInfo : String → Option AccountView
  minRentExempt : Nat → Nat
  getBalance : String → Nat
  submitOk : List Instr → Bool

/-- The instruction list of the close transaction built by
    RentCollector.closeTokenAccount (lines 807-837): a burn of the full token
    amount read from the raw account data when it is positive, followed by a
    close redirecting the lamports to the destination. -/
def closeInstrs (L : Ledger) (acct dest : String) : List Instr :=
  let tokenAmount :=
    match L.accountInfo acct with
    | some a => if 165 ≤ a.dataLen then a.tokenAmount else 0
    | none => 0
  let mint :=
    match L.accountInfo acct with
    | some a => a.mint
    | none => ""
  (if tokenAmount > 0 then [Instr.burnIx acct mint tokenAmount] else [])
    ++ [Instr.closeIx acct dest]

/-- The submission event of one close transaction. -/
def closeEvent (L : Ledger) (acct dest : String) : Event :=
  Event.submitEv .closingPhase (closeInstrs L acct dest) (L.submitOk (closeInstrs L acct dest))

/-- Result of RentCollector.closeTokenAccount (lines 774-873) together with
    the submission event: rentRecovered is the lamport balance read before the
    close on success and 0 on failure; any thrown error is caught and turned
    into a failed result. -/
structure CloseOutcome where
  success : Bool
  rentRecovered : Nat
  events : List Event
deriving Repr, DecidableEq

/-- Model of RentCollector.closeTokenAccount (lines 774-873). -/
def closeTokenAccount (L : Ledger) (acct dest : String) : CloseOutcome :=
  let rentRecovered :=
    match L.accountInfo acct with
    | some a => a.lamports
    | none => 0
  let ok := L.submitOk (closeInstrs L acct dest)
  CloseOutcome.mk ok (if ok then rentRecovered else 0) [closeEvent L acct dest]

/-- Accumulator of the close loop of processWalletCompletely: closed count,
    rent recovered, events so far. -/
abbrev CloseAcc := Nat × Nat × List Event

/-- Body of the close loop of processWalletCompletely (lines 1250-1285) for
    one discovered token account: compute the rent-exempt threshold, test
    eligibility on the lamports seen at discovery, and on eligibility submit
    the close, counting it when it succeeds. -/
def closeStep (L : Ledger) (feePayer : String) (acc : CloseAcc) (a : TokenAccountView) :
    CloseAcc :=
  let rentExemptBalance := L.minRentExempt a.dataLen
  if canCloseAccount a.lamports rentExemptBalance then
    let c := closeTokenAccount L a.pubkey feePayer
    if c.success then (acc.1 + 1, acc.2.1 + c.rentRecovered, acc.2.2 ++ c.events)
    else (acc.1, acc.2.1, acc.2.2 ++ c.events)
  else acc

/-- The standalone burn event of burnAllTokens for one token account
    (lines 1445-1524), when one is submitted: the account must still exist,
    have token-account data (at least 165 bytes) and a positive token amount. -/
def burnEventOf (L : Ledger) (a : TokenAccountView) : Option Event :=
  match L.accountInfo a.pubkey with
  | none => none
  | some info =>
    if info.dataLen < 165 then none
    else if info.tokenAmount > 0 then
      some (Event.submitEv .burnPhase [Instr.burnIx a.pubkey info.mint info.tokenAmount]
        (L.submitOk [Instr.burnIx a.pubkey info.mint info.tokenAmount]))
    else none

/-- Accumulator of the burn loop: burned-type count, total amount burned,
    events so far. -/
abbrev BurnAcc := Nat × Nat × List Event

/-- Body of the burn loop of burnAllTokens (lines 1445-1525) for one token
    account; a failed submission is caught per account and only logged. -/
def burnStep (L : Ledger) (acc : BurnAcc) (a : TokenAccountView) : BurnAcc :=
  match L.accountInfo a.pubkey with
  | none => acc
  | some info =>
    if info.dataLen < 165 then acc
    else if info.tokenAmount > 0 then
      let ix := [Instr.burnIx a.pubkey info.mint info.tokenAmount]
      let ok := L.submitOk ix
      if ok then (acc.1 + 1, acc.2.1 + info.tokenAmount, acc.2.2 ++ [Event.submitEv .burnPhase ix ok])
      else (acc.1, acc.2.1, acc.2.2 ++ [Event.submitEv .burnPhase ix ok])
    else acc

/-- Model of RentCollector.burnAllTokens (lines 1431-1538): re-discover the
    token accounts of the wallet and burn every remaining positive token
    amount, one transaction per account. -/
def burnAllTokens (L : Ledger) (ownerPub : String) : BurnAcc :=
  let accounts := getTokenAccounts (L.discovery ownerPub) ownerPub
  accounts.foldl (burnStep L) (0, 0, [Event.discoverEv ownerPub])

/-- Result of RentCollector.transferSolToFeePayer (lines 1081-1150) together
    with its submission event: the full amount is transferred (the fee payer
    covers the fee); a zero amount fails without submitting; a thrown
    submission error is caught and turned into a failed result. -/
structure TransferOutcome where
  success : Bool
  amountTransferred : Nat
  events : List Event
deriving Repr, DecidableEq

/-- Model of RentCollector.transferSolToFeePayer (lines 1081-1150). -/
def transferSolToFeePayer (L : Ledger) (feePayer fromPub : String) (amount : Nat) :
    TransferOutcome :=
  if amount = 0 then TransferOutcome.mk false 0 []
  else
    let ix := [Instr.transferIx fromPub feePayer amount]
    let ok := L.submitOk ix
    TransferOutcome.mk ok (if ok then amount else 0) [Event.submitEv .sweepPhase ix ok]

/-- Result of processing one wallet end to end, with the event trace of the
    run. -/
structure WalletProcessOutcome where
  tokenAccountsClosed : Nat
  rentRecovered : Nat
  solTransferred : Nat
  totalRecovered : Nat
  events : List Event
deriving Repr, DecidableEq

/-- Model of RentCollector.processWalletCompletely (lines 1215-1333): discover
    the token accounts, close every account whose discovered lamport balance
    is positive (each close transaction carrying the burn of any remaining
    token amount before the close instruction), then run the standalone
    burnAllTokens pass, then read the remaining native balance and, when
    positive, sweep it entirely to the fee payer.  A failed close or a failed
    sweep is logged and skipped; it does not fail the wallet. -/
def processWalletCompletely (L : Ledger) (feePayer : String) (w : WalletInfo) :
    WalletProcessOutcome :=
  let ownerPub := w.publicKey
  let accounts := getTokenAccounts (L.discovery ownerPub) ownerPub
  let closeRes := accounts.foldl (closeStep L feePayer) (0, 0, [])
  let burnRes := burnAllTokens L ownerPub
  let updatedBalance := L.getBalance ownerPub
  let sweep :=
    if updatedBalance > 0 then transferSolToFeePayer L feePayer ownerPub updatedBalance
    else TransferOutcome.mk false 0 []
  let solTransferred := if sweep.success then sweep.amountTransferred else 0
  WalletProcessOutcome.mk closeRes.1 closeRes.2.1 solTransferred
    (closeRes.2.1 + solTransferred)
    (Event.discoverEv ownerPub :: (closeRes.2.2 ++ burnRes.2.2 ++ sweep.events))

/-- One per-wallet result entry, mirroring RentCollectionResult from
    src/src/types.ts; the orchestration loop never appends to its results
    list, so the field stays empty in every summary. -/
structure RentCollectionResult where
  wallet : String
  success : Bool
  rentCollected : Nat
deriving Repr, DecidableEq

/-- The run summary, mirroring RentCollectionSummary from src/src/types.ts. -/
structure RentCollectionSummary where
  totalWallets : Nat
  successfulCollections : Nat
  totalRentCollected : Nat
  failedCollections : Nat
  results : List RentCollectionResult
deriving Repr, DecidableEq

/-- The wallet loop of processAllWallets (lines 1354-1406): walk the store in
    order with index i, treating the outcome of processWalletCompletely as an
    oracle that may throw (error).  A success bumps successfulCollections and
    adds the recovered total; a thrown per-wallet error is caught, bumps
    failedCollections and moves on to the next wallet.  The accumulator is
    (successfulWallets, failedWallets, totalRecovered). -/
def processLoop (processOne : Nat → WalletInfo → Except String WalletProcessOutcome) :
    Nat → Nat × Nat × Nat → List WalletInfo → Nat × Nat × Nat
  | _, acc, [] => acc
  | i, acc, w :: rest =>
    match processOne i w with
    | .ok r => processLoop processOne (i + 1) (acc.1 + 1, acc.2.1, acc.2.2 + r.totalRecovered) rest
    | .error _ => processLoop processOne (i + 1) (acc.1, acc.2.1 + 1, acc.2.2) rest

/-- Model of RentCollector.processAllWallets (lines 1338-1426) over an
    arbitrary per-wallet outcome oracle: run the loop and package the summary
    (the results list is never appended to in the source). -/
def processAllWalletsCore (wallets : List WalletInfo)
    (processOne : Nat → WalletInfo → Except String WalletProcessOutcome) :
    RentCollectionSummary :=
  let fin := processLoop processOne 0 (0, 0, 0) wallets
  RentCollectionSummary.mk wallets.length fin.1 fin.2.2 fin.2.1 []

/-- RentCollector.processAllWallets over the ledger model: with total read
    oracles, processWalletCompletely never throws, so every wallet takes the
    success branch of the loop. -/
def processAllWallets (L : Ledger) (feePayer : String) (wallets : List WalletInfo) :
    RentCollectionSummary :=
  processAllWalletsCore wallets (fun _ w => .ok (processWalletCompletely L feePayer w))

/-- The eligibility test of RentCollector.transferSolBalances (line 1172):
    the stored balance must exceed 0.00001 * LAMPORTS_PER_SOL and the wallet
    must not have pending rent.  The float product is 10000.000000000002, so
    an integer balance passes exactly when it exceeds 10000 lamports. -/
def solTransferEligible (w : WalletInfo) : Bool :=
  decide (w.balance > 10000) && (!w.canClose || decide (w.rentAmount = 0))

/-- Body of the transfer loop of transferSolBalances (lines 1168-1193) for one
    wallet; the accumulator is (successfulTransfers, failedTransfers,
    totalSolTransferred, events). -/
def transferStep (L : Ledger) (feePayer : String) (acc : Nat × Nat × Nat × List Event)
    (w : WalletInfo) : Nat × Nat × Nat × List Event :=
  if solTransferEligible w then
    let t := transferSolToFeePayer L feePayer w.publicKey w.balance
    if t.success then (acc.1 + 1, acc.2.1, acc.2.2.1 + t.amountTransferred, acc.2.2.2 ++ t.events)
    else (acc.1, acc.2.1 + 1, acc.2.2.1, acc.2.2.2 ++ t.events)
  else acc

/-- Model of RentCollector.transferSolBalances (lines 1155-1210): sweep the
    stored balance of every eligible wallet to the fee payer. -/
def transferSolBalances (L : Ledger) (feePayer : String) (wallets : List WalletInfo) :
    Nat × Nat × Nat × List Event :=
  wallets.foldl (transferStep L feePayer) (0, 0, 0, [])

/-- Body of the rent aggregation loop of processSingleWallet (lines 900-916)
    for one discovered token account; the accumulator is
    (totalRentToCollect, tokenAccountsWithRent). -/
def rentStep (L : Ledger) (acc : Nat × Nat) (a : TokenAccountView) : Nat × Nat :=
  let rentExemptBalance := L.minRentExempt a.dataLen
  let rentAmount := calculateRentAmount a.lamports rentExemptBalance
  if canCloseAccount a.lamports rentExemptBalance then (acc.1 + rentAmount, acc.2 + 1)
  else acc

/-- The rent aggregation of processSingleWallet (lines 896-916): fold over the
    discovered token accounts; each eligible account contributes its
    calculateRentAmount. -/
def walletRentTotals (L : Ledger) (accounts : List TokenAccountView) : Nat × Nat :=
  accounts.foldl (rentStep L) (0, 0)

/-- The phases of the transaction submissions of a trace, in order. -/
def submittedPhases (events : List Event) : List Phase :=
  events.filterMap (fun e =>
    match e with
    | .submitEv p _ _ => some p
    | .discoverEv _ => none)

/-- Numeric rank of a phase in the pipeline order of the source. -/
def phaseIdx : Phase → Nat
  | .closingPhase => 0
  | .burnPhase => 1
  | .sweepPhase => 2

/-- The closing-phase submissions of a trace, in order. -/
def closingSubmits (events : List Event) : List Event :=
  events.filter (fun e =>
    match e with
    | .submitEv .closingPhase _ _ => true
    | _ => false)

/-- The sweep-phase submissions of a trace, in order. -/
def sweepSubmits (events : List Event) : List Event :=
  events.filter (fun e =>
    match e with
    | .submitEv .sweepPhase _ _ => true
    | _ => false)

/-! ### Concrete fixtures used by witnesses and counterexamples -/

/-- A concrete key derivation oracle: every secret decodes, and the derived
    public key is the first four characters of the secret. -/
def derive0 : String → Option String :=
  fun s => some (String.mk (s.data.take 4))

/-- An 80-character candidate secret line. -/
def secretA : String :=
  String.mk (List.replicate 80 'a')

/-- A second, distinct 80-character candidate secret line. -/
def secretB : String :=
  String.mk (List.replicate 80 'b')

/-- A simple-format wallet file repeating the same secret twice. -/
def contentA2 : String :=
  secretA ++ "\n" ++ secretA

/-- A simple-format wallet file holding only secretB. -/
def contentB : String :=
  secretB

/-- A store holding one wallet that discovery has already populated. -/
def store9 : List WalletInfo :=
  [WalletInfo.mk secretA "aaaa" 500000 0 300000 true]

/-- The store produced by loading contentB on top of store9. -/
def result9 : List WalletInfo :=
  [WalletInfo.mk secretA "aaaa" 0 0 0 false, WalletInfo.mk secretB "bbbb" 0 0 0 false]

/-- A one-record store for the out-of-range witness. -/
def wallet0 : WalletInfo :=
  WalletInfo.mk "sk0" "PUB0" 7 0 0 false

/-- A retried remote call that is rate limited twice and then succeeds. -/
def retryFn0 : Nat → Except String Nat :=
  fun n => if n = 0 then .error "429 rate limited"
    else if n = 1 then .error "Too Many Requests" else .ok 7

/-- A retried remote call that fails at once with a non-rate-limit error. -/
def retryG0 : Nat → Except String Nat :=
  fun _ => .error "insufficient funds"

/-- A discovery oracle for the spec scenario: strategy 1 returns accounts A
    and B, strategy 2 returns B and C, strategy 3 errors. -/
def oracle3 : DiscoveryOracle :=
  DiscoveryOracle.mk
    (.ok [TokenAccountView.mk "A" 2039280 165 "TOKEN" "OWNER",
          TokenAccountView.mk "B" 2039280 165 "TOKEN" "OWNER"])
    (.ok [])
    (.ok [TokenAccountView.mk "B" 2039280 165 "TOKEN" "OWNER",
          TokenAccountView.mk "C" 2039280 165 "TOKEN" "OWNER"])
    (.error "strategy 3 failed")
    (.error "strategy 3 failed")

/-- A discovery oracle returning no token accounts at all. -/
def emptyOracle : DiscoveryOracle :=
  DiscoveryOracle.mk (.ok []) (.ok []) (.ok []) (.ok []) (.ok [])

/-- Wallet X of the partial-failure scenario: no token accounts, 500000
    lamports native. -/
def walletX5 : WalletInfo :=
  WalletInfo.mk "skX" "PUBX" 0 0 0 false

/-- Wallet Y of the partial-failure scenario: no token accounts, 300000
    lamports native, whose sweep submission fails. -/
def walletY5 : WalletInfo :=
  WalletInfo.mk "skY" "PUBY" 0 0 0 false

/-- A ledger where every submission succeeds except the sweep of wallet Y,
    which fails with a non-rate-limit submission error. -/
def ledger5 : Ledger :=
  Ledger.mk (fun _ => emptyOracle) (fun _ => none) (fun _ => 0)
    (fun s => if s = "PUBX" then 500000 else if s = "PUBY" then 300000 else 0)
    (fun ix => decide (ix ≠ [Instr.transferIx "PUBY" "FEEPAYER" 300000]))

/-- The wallet of the phase-order scenarios. -/
def wallet6 : WalletInfo :=
  WalletInfo.mk "sk6" "PUB6" 0 0 0 false

/-- A discovery oracle where the wallet owns exactly one token account A6. -/
def oracle6 : DiscoveryOracle :=
  DiscoveryOracle.mk (.ok [TokenAccountView.mk "A6" 2039280 165 "TOKEN" "PUB6"])
    (.ok []) (.ok []) (.ok []) (.ok [])

/-- A ledger where the close transaction of account A6 (carrying its burn)
    fails, while the standalone burn transaction succeeds: burnAllTokens then
    submits a burn after the closing phase. -/
def ledger6 : Ledger :=
  Ledger.mk (fun _ => oracle6)
    (fun s => if s = "A6" then some (AccountView.mk 2039280 165 "M6" 1000 "TOKEN") else none)
    (fun _ => 2039280)
    (fun _ => 0)
    (fun ix => decide (ix = [Instr.burnIx "A6" "M6" 1000]))

/-- A ledger where every submission succeeds and account A6 still holds 5
    tokens, so its close transaction carries a burn instruction. -/
def ledger6w : Ledger :=
  Ledger.mk (fun _ => oracle6)
    (fun s => if s = "A6" then some (AccountView.mk 2039280 165 "M6" 5 "TOKEN") else none)
    (fun _ => 2039280)
    (fun _ => 0)
    (fun _ => true)

/-- The wallet of the minimum-floor scenario. -/
def wallet8 : WalletInfo :=
  WalletInfo.mk "sk8" "PUB8" 0 0 0 false

/-- A discovery oracle where the wallet owns one token account A8 holding a
    single lamport. -/
def oracle8 : DiscoveryOracle :=
  DiscoveryOracle.mk (.ok [TokenAccountView.mk "A8" 1 165 "TOKEN" "PUB8"])
    (.ok []) (.ok []) (.ok []) (.ok [])

/-- A ledger where account A8 holds 1 lamport and no tokens, every submission
    succeeds, and the wallet is left with a residue of 1 lamport: both values
    sit far below the 10000-lamport floor of transferSolBalances, yet the
    pipeline closes and sweeps them. -/
def ledger8 : Ledger :=
  Ledger.mk (fun _ => oracle8)
    (fun s => if s = "A8" then some (AccountView.mk 1 165 "M8" 0 "TOKEN") else none)
    (fun _ => 2039280)
    (fun s => if s = "PUB8" then 1 else 0)
    (fun _ => true)

/-! ### Helper lemmas about the insertion-ordered map -/

theorem upsertBy_of_not_mem {key : α → String} {l : List α} {a : α}
    (h : l.any (fun x => key x == key a) = false) :
    upsertBy key l a = l ++ [a] := by
  simp only [upsertBy, h]
  simp

theorem map_key_upsertBy_of_mem {key : α → String} {l : List α} {a : α}
    (h : l.any (fun x => key x == key a) = true) :
    (upsertBy key l a).map key = l.map key := by
  simp only [upsertBy, h, if_true]
  rw [List.map_map]
  apply List.map_congr_left
  intro x _
  by_cases hx : key x == key a
  · simp only [Function.comp_apply, hx, if_true]
    exact (beq_iff_eq.mp hx).symm
  · simp only [Function.comp_apply, hx, if_false]
    rfl

theorem map_key_upsertBy_nodup {key : α → String} {l : List α} {a : α}
    (h : (l.map key).Nodup) : ((upsertBy key l a).map key).Nodup := by
  rcases ha : l.any (fun x => key x == key a) with _ | _
  · rw [upsertBy_of_not_mem ha]
    simp only [List.map_append, List.map_cons, List.map_nil]
    rw [List.nodup_append]
    refine ⟨h, List.nodup_singleton _, ?_⟩
    intro p hp hq
    simp only [List.mem_singleton] at hq
    subst hq
    simp only [List.any_eq_false, beq_iff_eq] at ha
    simp only [List.mem_map] at hp
    obtain ⟨x, hx, hkx⟩ := hp
    exact ha x hx hkx
  · rw [map_key_upsertBy_of_mem ha]
    exact h

theorem mem_map_key_upsertBy {key : α → String} {l : List α} {a : α} {p : String} :
    p ∈ (upsertBy key l a).map key ↔ p ∈ l.map key ∨ p = key a := by
  rcases ha : l.any (fun x => key x == key a) with _ | _
  · rw [upsertBy_of_not_mem ha]
    simp
  · rw [map_key_upsertBy_of_mem ha]
    simp only [List.any_eq_true, beq_iff_eq] at ha
    obtain ⟨x, hx, hkx⟩ := ha
    constructor
    · exact Or.inl
    · rintro (hp | rfl)
      · exact hp
      · exact List.mem_map.mpr ⟨x, hx, hkx⟩

theorem mem_upsertBy {key : α → String} {l : List α} {a : α} {x : α}
    (h : x ∈ upsertBy key l a) : x ∈ l ∨ x = a := by
  rcases ha : l.any (fun y => key y == key a) with _ | _
  · rw [upsertBy_of_not_mem ha] at h
    simpa using h
  · simp only [upsertBy, ha, if_true] at h
    obtain ⟨y, hy, hxy⟩ := List.mem_map.mp h
    by_cases hk : key y == key a
    · simp only [hk, if_true] at hxy
      exact Or.inr hxy.symm
    · simp only [hk, if_false] at hxy
      exact Or.inl (hxy ▸ hy)

theorem foldl_upsertBy_key_nodup {key : α → String} :
    ∀ (l init : List α), ((init.map key).Nodup) →
      (((l.foldl (upsertBy key) init)).map key).Nodup := by
  intro l
  induction l with
  | nil => intro init h; exact h
  | cons a t ih =>
    intro init h
    exact ih (upsertBy key init a) (map_key_upsertBy_nodup h)

theorem mem_map_key_foldl_upsertBy {key : α → String} :
    ∀ (l init : List α) (p : String),
      p ∈ ((l.foldl (upsertBy key) init)).map key ↔ p ∈ init.map key ∨ p ∈ l.map key := by
  intro l
  induction l with
  | nil => intro init p; simp
  | cons a t ih =>
    intro init p
    rw [List.foldl_cons, ih]
    rw [mem_map_key_upsertBy]
    simp only [List.map_cons, List.mem_cons]
    tauto

theorem mem_foldl_upsertBy {key : α → String} :
    ∀ (l init : List α) (x : α), x ∈ l.foldl (upsertBy key) init → x ∈ init ∨ x ∈ l := by
  intro l
  induction l with
  | nil => intro init x h; exact Or.inl h
  | cons a t ih =>
    intro init x h
    rcases ih (upsertBy key init a) x h with h2 | h2
    · rcases mem_upsertBy h2 with h3 | rfl
      · exact Or.inl h3
      · exact Or.inr (List.mem_cons_self _ _)
    · exact Or.inr (List.mem_cons_of_mem _ h2)

theorem foldl_upsertBy_of_fresh {key : α → String} :
    ∀ (l init : List α), (∀ x ∈ l, key x ∉ init.map key) → ((l.map key).Nodup) →
      l.foldl (upsertBy key) init = init ++ l := by
  intro l
  induction l with
  | nil => intro init _ _; simp
  | cons a t ih =>
    intro init hfresh hnd
    have ha : init.any (fun x => key x == key a) = false := by
      simp only [List.any_eq_false, beq_iff_eq]
      intro x hx hk
      exact hfresh a (List.mem_cons_self _ _) (List.mem_map.mpr ⟨x, hx, hk⟩)
    rw [List.foldl_cons, upsertBy_of_not_mem ha, ih (init ++ [a])]
    · simp
    · intro x hx
      simp only [List.map_append, List.map_cons, List.map_nil, List.mem_append,
        List.mem_singleton]
      rintro (hmem | hk)
      · exact hfresh x (List.mem_cons_of_mem _ hx) hmem
      · simp only [List.map_cons, List.nodup_cons] at hnd
        exact hnd.1 (hk ▸ List.mem_map.mpr ⟨x, hx, rfl⟩)
    · simp only [List.map_cons, List.nodup_cons] at hnd
      exact hnd.2

/-! ### C2: deduplication of wallet loads -/

theorem dedupStep_key_nodup {derive : String → Option String} {entries : List KeyEntry}
    {pk : String} {es : List KeyEntry}
    (hn : (entries.map KeyEntry.publicKey).Nodup)
    (h : dedupStep derive entries pk = some es) :
    (es.map KeyEntry.publicKey).Nodup := by
  rcases hd : derive pk with _ | pub <;> simp only [dedupStep, hd] at h
  · exact Option.noConfusion h
  · split_ifs at h with h1 h2
    · obtain rfl := Option.some.inj h
      exact hn
    · obtain rfl := Option.some.inj h
      exact hn
    · obtain rfl := Option.some.inj h
      exact map_key_upsertBy_nodup hn

theorem dedupStep_extends {derive : String → Option String} {entries : List KeyEntry}
    {pk : String} {es : List KeyEntry}
    (h : dedupStep derive entries pk = some es) :
    ∃ r, es = entries ++ r := by
  rcases hd : derive pk with _ | pub <;> simp only [dedupStep, hd] at h
  · exact Option.noConfusion h
  · split_ifs at h with h1 h2
    · obtain rfl := Option.some.inj h
      exact ⟨[], by simp⟩
    · obtain rfl := Option.some.inj h
      exact ⟨[], by simp⟩
    · obtain rfl := Option.some.inj h
      refine ⟨[KeyEntry.mk pk pub], ?_⟩
      rw [upsertBy_of_not_mem]
      simpa using h1

theorem dedupAll_key_nodup {derive : String → Option String} :
    ∀ (pks : List String) (entries es : List KeyEntry),
      (entries.map KeyEntry.publicKey).Nodup →
      dedupAll derive entries pks = some es →
      (es.map KeyEntry.publicKey).Nodup := by
  intro pks
  induction pks with
  | nil =>
    intro entries es hn h
    obtain rfl := Option.some.inj h
    exact hn
  | cons pk t ih =>
    intro entries es hn h
    rcases hs : dedupStep derive entries pk with _ | es2 <;>
      simp only [dedupAll, hs] at h
    · exact Option.noConfusion h
    · exact ih es2 es (dedupStep_key_nodup hn hs) h

theorem dedupAll_extends {derive : String → Option String} :
    ∀ (pks : List String) (entries es : List KeyEntry),
      dedupAll derive entries pks = some es → ∃ r, es = entries ++ r := by
  intro pks
  induction pks with
  | nil =>
    intro entries es h
    obtain rfl := Option.some.inj h
    exact ⟨[], by simp⟩
  | cons pk t ih =>
    intro entries es h
    rcases hs : dedupStep derive entries pk with _ | es2 <;>
      simp only [dedupAll, hs] at h
    · exact Option.noConfusion h
    · obtain ⟨r1, rfl⟩ := dedupStep_extends hs
      obtain ⟨r2, rfl⟩ := ih _ _ h
      exact ⟨r1 ++ r2, by simp⟩

theorem dedupAll_total {derive : String → Option String} :
    ∀ (pks : List String), (∀ pk ∈ pks, (derive pk).isSome) →
      ∀ entries, ∃ es, dedupAll derive entries pks = some es := by
  intro pks
  induction pks with
  | nil => intro _ entries; exact ⟨entries, rfl⟩
  | cons pk t ih =>
    intro hder entries
    obtain ⟨pub, hp⟩ := Option.isSome_iff_exists.mp (hder pk (List.mem_cons_self _ _))
    have hstep : ∃ es2, dedupStep derive entries pk = some es2 := by
      simp only [dedupStep, hp]
      split_ifs
      · exact ⟨entries, rfl⟩
      · exact ⟨entries, rfl⟩
      · exact ⟨_, rfl⟩
    obtain ⟨es2, hs⟩ := hstep
    obtain ⟨es, he⟩ := ih (fun q hq => hder q (List.mem_cons_of_mem _ hq)) es2
    refine ⟨es, ?_⟩
    simp only [dedupAll, hs]
    exact he

theorem seeded_map_entry (base : List WalletInfo)
    (hn : (base.map WalletInfo.publicKey).Nodup) :
    seededEntries base = base.map entryOf := by
  unfold seededEntries
  rw [← List.foldl_map (f := entryOf) (g := upsertBy KeyEntry.publicKey)]
  rw [foldl_upsertBy_of_fresh]
  · simp
  · intro x _ hx
    simp at hx
  · rw [List.map_map]
    have : (base.map (KeyEntry.publicKey ∘ entryOf)) = base.map WalletInfo.publicKey := by
      apply List.map_congr_left
      intro w _
      rfl
    rw [this]
    exact hn

theorem seeded_key_nodup (base : List WalletInfo) :
    ((seededEntries base).map KeyEntry.publicKey).Nodup := by
  unfold seededEntries
  rw [← List.foldl_map (f := entryOf) (g := upsertBy KeyEntry.publicKey)]
  exact foldl_upsertBy_key_nodup _ [] (by simp)

/-- C2: after any load with clearExisting false, on top of any prior store
    state, the store holds at most one record per derived public identity
    (its public keys are nodup); and when the file parses to at least one
    candidate secret and every candidate decodes, the load succeeds, so a
    duplicate secret is dropped without error. -/
theorem loadWallets_dedup (derive : String → Option String) (store : List WalletInfo)
    (content : String) :
    (∀ ws', loadWalletsFromFile derive store content false = .ok ws' →
        (ws'.map WalletInfo.publicKey).Nodup)
    ∧ ((extractKeys content).1 ≠ [] →
        (∀ pk ∈ (extractKeys content).1, (derive pk).isSome) →
        ∃ ws', loadWalletsFromFile derive store content false = .ok ws') := by
  constructor
  · intro ws' h
    by_cases hemp : (extractKeys content).1 = [] <;>
      simp only [loadWalletsFromFile, hemp, if_true, if_false, Bool.false_eq_true,
        reduceCtorEq] at h
    rcases hd : dedupAll derive (seededEntries store) (extractKeys content).1
        with _ | entries <;> simp only [hd, reduceCtorEq] at h
    obtain rfl := Except.ok.inj h
    have hent := dedupAll_key_nodup _ _ _ (seeded_key_nodup store) hd
    rw [List.map_map]
    have : (entries.map (WalletInfo.publicKey ∘ mkFreshWallet))
        = entries.map KeyEntry.publicKey := by
      apply List.map_congr_left
      intro e _
      rfl
    rw [this]
    exact hent
  · intro hne hder
    obtain ⟨es, hes⟩ := dedupAll_total _ hder (seededEntries store)
    refine ⟨es.map mkFreshWallet, ?_⟩
    simp only [loadWalletsFromFile, hne, if_false, Bool.false_eq_true, hes]

/-- Witness for C2: loading a file repeating the same secret twice into an
    empty store succeeds and yields a store with nodup public keys. -/
theorem loadWallets_dedup_witness :
    ((extractKeys contentA2).1 ≠ []
      ∧ ∀ pk ∈ (extractKeys contentA2).1, (derive0 pk).isSome)
    ∧ (∃ ws', loadWalletsFromFile derive0 [] contentA2 false = .ok ws')
    ∧ (([WalletInfo.mk secretA "aaaa" 0 0 0 false].map WalletInfo.publicKey).Nodup) := by
  refine ⟨⟨by decide, by decide⟩, ?_, ?_⟩
  · exact (loadWallets_dedup derive0 [] contentA2).2 (by decide) (by decide)
  · exact (loadWallets_dedup derive0 [] contentA2).1 _ rfl

/-! ### C9: which operations touch the discovery fields -/

theorem listModify_get?_ne {α : Type} :
    ∀ (l : List α) (n : Nat) (f : α → α) (j : Nat), j ≠ n →
      (listModify l n f).get? j = l.get? j := by
  intro l
  induction l with
  | nil => intro n f j _; rfl
  | cons a t ih =>
    intro n f j hj
    cases n with
    | zero =>
      cases j with
      | zero => exact absurd rfl hj
      | succ j2 => rfl
    | succ m =>
      cases j with
      | zero => rfl
      | succ j2 =>
        simp only [listModify, List.get?]
        exact ih m f j2 (fun hc => hj (by rw [hc]))

/-- C9 corrected: updateWalletInfo touches no record other than the indexed
    one, but a load with clearExisting false rebuilds the whole store: it
    preserves the identity (privateKey, publicKey) and the order of the
    previously loaded records as a prefix, yet resets the discovery fields
    balance, rentExemptBalance, rentAmount and canClose of every record,
    previously loaded ones included, to 0, 0, 0, false. -/
theorem walletStore_discovery_frame (derive : String → Option String)
    (store : List WalletInfo) (content : String) (ws' : List WalletInfo)
    (hnd : (store.map WalletInfo.publicKey).Nodup)
    (h : loadWalletsFromFile derive store content false = .ok ws') :
    ((ws'.map entryOf).take store.length = store.map entryOf)
    ∧ (∀ w ∈ ws', w.balance = 0 ∧ w.rentExemptBalance = 0
        ∧ w.rentAmount = 0 ∧ w.canClose = false)
    ∧ (∀ (ws : List WalletInfo) (index : Int) (b re ra : Nat) (c : Bool) (j : Nat),
        (j : Int) ≠ index →
        (updateWalletInfo ws index b re ra c).get? j = ws.get? j) := by
  refine ⟨?_, ?_, ?_⟩
  · by_cases hemp : (extractKeys content).1 = [] <;>
      simp only [loadWalletsFromFile, hemp, if_true, if_false, Bool.false_eq_true,
        reduceCtorEq] at h
    rcases hd : dedupAll derive (seededEntries store) (extractKeys content).1
        with _ | entries <;> simp only [hd, reduceCtorEq] at h
    obtain rfl := Except.ok.inj h
    obtain ⟨r, hr⟩ := dedupAll_extends _ _ _ hd
    rw [seeded_map_entry store hnd] at hr
    subst hr
    rw [List.map_map]
    have hcomp : (store.map entryOf ++ r).map (entryOf ∘ mkFreshWallet)
        = store.map entryOf ++ r := by
      have hid : entryOf ∘ mkFreshWallet = id := by
        funext e
        rfl
      rw [hid, List.map_id]
    rw [hcomp]
    rw [show store.length = (store.map entryOf).length from (List.length_map _ _).symm]
    exact List.take_left _ _
  · intro w hw
    by_cases hemp : (extractKeys content).1 = [] <;>
      simp only [loadWalletsFromFile, hemp, if_true, if_false, Bool.false_eq_true,
        reduceCtorEq] at h
    rcases hd : dedupAll derive (seededEntries store) (extractKeys content).1
        with _ | entries <;> simp only [hd, reduceCtorEq] at h
    obtain rfl := Except.ok.inj h
    obtain ⟨e, _, rfl⟩ := List.mem_map.mp hw
    exact ⟨rfl, rfl, rfl, rfl⟩
  · intro ws index b re ra c j hj
    unfold updateWalletInfo
    by_cases hin : 0 ≤ index ∧ index < (ws.length : Int)
    · rw [if_pos hin]
      apply listModify_get?_ne
      omega
    · rw [if_neg hin]

/-- Witness for C9 at the concrete load of contentB on top of store9. -/
theorem walletStore_discovery_frame_witness :
    ((store9.map WalletInfo.publicKey).Nodup)
    ∧ ((result9.map entryOf).take store9.length = store9.map entryOf) := by
  refine ⟨by decide, ?_⟩
  exact (walletStore_discovery_frame derive0 store9 contentB result9 (by decide) rfl).1

/-- Counterexample for C9 as stated: loading an additional wallet file does
    not leave the discovery fields of the previously loaded record unchanged;
    the prior record had balance 500000, rentAmount 300000 and canClose true,
    and after the load it has balance 0, rentAmount 0 and canClose false. -/
theorem loadWallets_resets_discovery_counterexample :
    loadWalletsFromFile derive0 store9 contentB false = .ok result9
    ∧ store9.map WalletInfo.balance = [500000]
    ∧ result9.map WalletInfo.balance = [0, 0]
    ∧ store9.map WalletInfo.rentAmount = [300000]
    ∧ result9.map WalletInfo.rentAmount = [0, 0]
    ∧ store9.map WalletInfo.canClose = [true]
    ∧ result9.map WalletInfo.canClose = [false, false] :=
  ⟨rfl, by decide, by decide, by decide, by decide, by decide, by decide⟩

/-! ### C3: discovery unions and dedups by account identity -/

/-- C3: for every oracle and owner, discovery returns records drawn from the
    union of the three method contributions, its account identities are
    exactly those of the union, each appearing at most once; and in the spec
    scenario (strategy 1 gives A and B, strategy 2 gives B and C, strategy 3
    errors) it returns exactly A, B, C. -/
theorem getTokenAccounts_union_dedup (o : DiscoveryOracle) (owner : String) :
    ((getTokenAccounts o owner).map TokenAccountView.pubkey).Nodup
    ∧ (∀ p, p ∈ (getTokenAccounts o owner).map TokenAccountView.pubkey ↔
        p ∈ (method1 o ++ method2 o owner ++ method3 o owner).map TokenAccountView.pubkey)
    ∧ (∀ r ∈ getTokenAccounts o owner, r ∈ method1 o ++ method2 o owner ++ method3 o owner)
    ∧ (getTokenAccounts oracle3 "OWNER").map TokenAccountView.pubkey = ["A", "B", "C"] := by
  refine ⟨?_, ?_, ?_, by decide⟩
  · unfold getTokenAccounts dedupByPubkey
    exact foldl_upsertBy_key_nodup _ [] (by simp)
  · intro p
    unfold getTokenAccounts dedupByPubkey
    rw [mem_map_key_foldl_upsertBy]
    simp
  · intro r hr
    unfold getTokenAccounts dedupByPubkey at hr
    rcases mem_foldl_upsertBy _ _ _ hr with h | h
    · simp at h
    · exact h

/-- Witness for C3: account A of the spec scenario is in the discovery
    result. -/
theorem getTokenAccounts_union_dedup_witness :
    "A" ∈ (getTokenAccounts oracle3 "OWNER").map TokenAccountView.pubkey :=
  ((getTokenAccounts_union_dedup oracle3 "OWNER").2.1 "A").mpr (by decide)

/-! ### C10: out-of-range accesses of the wallet store -/

/-- C10: for every index outside the bounds of the wallet store, getWallet
    returns null rather than failing, and updateWalletInfo is a no-op that
    leaves every record unchanged. -/
theorem getWallet_updateWalletInfo_out_of_range (ws : List WalletInfo) (index : Int)
    (b re ra : Nat) (c : Bool) (h : index < 0 ∨ (ws.length : Int) ≤ index) :
    getWallet ws index = none ∧ updateWalletInfo ws index b re ra c = ws := by
  have hc : ¬(0 ≤ index ∧ index < (ws.length : Int)) := by omega
  exact ⟨by simp only [getWallet, hc, if_false], by simp only [updateWalletInfo, hc, if_false]⟩

/-- Witness for C10 at a one-record store and index 5. -/
theorem getWallet_updateWalletInfo_out_of_range_witness :
    ((5 : Int) < 0 ∨ (([wallet0].length : Int) ≤ 5))
    ∧ getWallet [wallet0] 5 = none ∧ updateWalletInfo [wallet0] 5 1 2 3 true = [wallet0] := by
  refine ⟨by decide, ?_, ?_⟩
  · exact (getWallet_updateWalletInfo_out_of_range [wallet0] 5 1 2 3 true (by decide)).1
  · exact (getWallet_updateWalletInfo_out_of_range [wallet0] 5 1 2 3 true (by decide)).2

/-! ### C7: retry with exponential backoff -/

theorem retryLoop_ok {α : Type} {fn : Nat → Except String α} {base attempt remaining : Nat}
    {v : α} (h : fn attempt = .ok v) :
    retryLoop fn base attempt remaining = RetryOutcome.mk (.ok v) [] := by
  unfold retryLoop
  rw [h]

theorem retryLoop_error_zero {α : Type} {fn : Nat → Except String α} {base attempt : Nat}
    {e : String} (h : fn attempt = .error e) :
    retryLoop fn base attempt 0 = RetryOutcome.mk (.error e) [] := by
  unfold retryLoop
  rw [h]

theorem retryLoop_error_rate {α : Type} {fn : Nat → Except String α} {base attempt r : Nat}
    {e : String} (h : fn attempt = .error e) (hr : isRateLimitMessage e = true) :
    retryLoop fn base attempt (r + 1)
      = RetryOutcome.mk (retryLoop fn base (attempt + 1) r).result
          (base * 2 ^ attempt :: (retryLoop fn base (attempt + 1) r).delays) := by
  conv_lhs => unfold retryLoop
  rw [h]
  simp [hr]

theorem retryLoop_error_other {α : Type} {fn : Nat → Except String α} {base attempt r : Nat}
    {e : String} (h : fn attempt = .error e) (hr : isRateLimitMessage e = false) :
    retryLoop fn base attempt (r + 1) = RetryOutcome.mk (.error e) [] := by
  conv_lhs => unfold retryLoop
  rw [h]
  simp [hr]

/-- C7: a wrapped call that is rate limited on the first two attempts and
    succeeds on the third returns the successful result after exactly two
    backoff delays of strictly increasing duration (the base delay, then its
    double); a wrapped call failing once with a non-rate-limit error
    propagates that error at once with zero retries (source defaults:
    maxRetries 3, baseDelay 1000). -/
theorem retryWithBackoff_behavior {α : Type} (fn g : Nat → Except String α)
    (e0 e1 e : String) (v : α) (base : Nat)
    (h0 : fn 0 = .error e0) (hr0 : isRateLimitMessage e0 = true)
    (h1 : fn 1 = .error e1) (hr1 : isRateLimitMessage e1 = true)
    (h2 : fn 2 = .ok v) (hbase : 0 < base)
    (hg : g 0 = .error e) (hge : isRateLimitMessage e = false) :
    (retryWithBackoff fn 3 base).result = .ok v
    ∧ (retryWithBackoff fn 3 base).delays = [base, base * 2]
    ∧ base < base * 2
    ∧ retryWithBackoff g 3 base = RetryOutcome.mk (.error e) [] := by
  have hfn : retryWithBackoff fn 3 base = RetryOutcome.mk (.ok v) [base, base * 2] := by
    unfold retryWithBackoff
    rw [retryLoop_error_rate h0 hr0, retryLoop_error_rate h1 hr1, retryLoop_ok h2]
    simp [pow_succ]
  refine ⟨by rw [hfn], by rw [hfn], by omega, ?_⟩
  unfold retryWithBackoff
  exact retryLoop_error_other hg hge

/-- Witness for C7 at the concrete oracles retryFn0 and retryG0 with the
    source default base delay 1000. -/
theorem retryWithBackoff_behavior_witness :
    isRateLimitMessage "429 rate limited" = true
    ∧ isRateLimitMessage "insufficient funds" = false
    ∧ (retryWithBackoff retryFn0 3 1000).result = .ok 7
    ∧ (retryWithBackoff retryFn0 3 1000).delays = [1000, 1000 * 2]
    ∧ retryWithBackoff retryG0 3 1000 = RetryOutcome.mk (.error "insufficient funds") [] := by
  have h := retryWithBackoff_behavior retryFn0 retryG0 "429 rate limited"
    "Too Many Requests" "insufficient funds" 7 1000
    rfl (by decide) rfl (by decide) rfl (by decide) rfl (by decide)
  exact ⟨by decide, by decide, h.1, h.2.1, h.2.2.2⟩

/-! ### Trace lemmas for the per-wallet pipeline -/

theorem closeStep_fold_events (L : Ledger) (feePayer : String) :
    ∀ (accounts : List TokenAccountView) (n m : Nat) (evs : List Event),
      (accounts.foldl (closeStep L feePayer) (n, m, evs)).2.2
        = evs ++ (accounts.filter (fun a => decide (0 < a.lamports))).map
            (fun a => closeEvent L a.pubkey feePayer) := by
  intro accounts
  induction accounts with
  | nil => intro n m evs; simp
  | cons a t ih =>
    intro n m evs
    rw [List.foldl_cons]
    by_cases ha : 0 < a.lamports
    · have hfil : (a :: t).filter (fun a => decide (0 < a.lamports))
          = a :: t.filter (fun a => decide (0 < a.lamports)) := by
        simp [List.filter_cons, ha]
      have hacc : ∃ n2 m2, closeStep L feePayer (n, m, evs) a
          = (n2, m2, evs ++ [closeEvent L a.pubkey feePayer]) := by
        simp only [closeStep]
        split_ifs with h1 h2
        · exact ⟨_, _, rfl⟩
        · exact ⟨_, _, rfl⟩
        · simp only [canCloseAccount, decide_eq_true_eq] at h1
          exact absurd ha h1
      obtain ⟨n2, m2, hcs⟩ := hacc
      rw [hcs, ih, hfil]
      simp
    · have hfil : (a :: t).filter (fun a => decide (0 < a.lamports))
          = t.filter (fun a => decide (0 < a.lamports)) := by
        simp [List.filter_cons, ha]
      have hcs : closeStep L feePayer (n, m, evs) a = (n, m, evs) := by
        simp only [closeStep]
        split_ifs with h1 h2
        · simp only [canCloseAccount, decide_eq_true_eq] at h1
          exact absurd h1 ha
        · simp only [canCloseAccount, decide_eq_true_eq] at h1
          exact absurd h1 ha
        · rfl
      rw [hcs, ih, hfil]

theorem burnStep_fold_events (L : Ledger) :
    ∀ (accounts : List TokenAccountView) (n m : Nat) (evs : List Event),
      (accounts.foldl (burnStep L) (n, m, evs)).2.2
        = evs ++ accounts.filterMap (burnEventOf L) := by
  intro accounts
  induction accounts with
  | nil => intro n m evs; simp
  | cons a t ih =>
    intro n m evs
    rw [List.foldl_cons, List.filterMap_cons]
    rcases hinfo : L.accountInfo a.pubkey with _ | info
    · have hbs : burnStep L (n, m, evs) a = (n, m, evs) := by
        simp only [burnStep, hinfo]
      have hbe : burnEventOf L a = none := by
        simp only [burnEventOf, hinfo]
      rw [hbs, ih, hbe]
    · by_cases hlen : info.dataLen < 165
      · have hbs : burnStep L (n, m, evs) a = (n, m, evs) := by
          simp only [burnStep, hinfo]
          rw [if_pos hlen]
        have hbe : burnEventOf L a = none := by
          simp only [burnEventOf, hinfo]
          rw [if_pos hlen]
        rw [hbs, ih, hbe]
      · by_cases hamt : 0 < info.tokenAmount
        · rcases hok : L.submitOk [Instr.burnIx a.pubkey info.mint info.tokenAmount]
              with _ | _
          · have hbe : burnEventOf L a = some (Event.submitEv .burnPhase
                [Instr.burnIx a.pubkey info.mint info.tokenAmount] false) := by
              simp only [burnEventOf, hinfo]
              rw [if_neg hlen, if_pos hamt, hok]
            have hbs : burnStep L (n, m, evs) a
                = (n, m, evs ++ [Event.submitEv .burnPhase
                    [Instr.burnIx a.pubkey info.mint info.tokenAmount] false]) := by
              simp only [burnStep, hinfo]
              rw [if_neg hlen, if_pos hamt, hok]
              simp
            rw [hbs, ih, hbe]
            simp
          · have hbe : burnEventOf L a = some (Event.submitEv .burnPhase
                [Instr.burnIx a.pubkey info.mint info.tokenAmount] true) := by
              simp only [burnEventOf, hinfo]
              rw [if_neg hlen, if_pos hamt, hok]
            have hbs : burnStep L (n, m, evs) a
                = (n + 1, m + info.tokenAmount, evs ++ [Event.submitEv .burnPhase
                    [Instr.burnIx a.pubkey info.mint info.tokenAmount] true]) := by
              simp only [burnStep, hinfo]
              rw [if_neg hlen, if_pos hamt, hok]
              simp
            rw [hbs, ih, hbe]
            simp
        · have hbs : burnStep L (n, m, evs) a = (n, m, evs) := by
            simp only [burnStep, hinfo]
            rw [if_neg hlen, if_neg hamt]
          have hbe : burnEventOf L a = none := by
            simp only [burnEventOf, hinfo]
            rw [if_neg hlen, if_neg hamt]
          rw [hbs, ih, hbe]

theorem burnEventOf_shape {L : Ledger} {a : TokenAccountView} {e : Event}
    (h : burnEventOf L a = some e) : ∃ ix ok, e = Event.submitEv .burnPhase ix ok := by
  rcases hinfo : L.accountInfo a.pubkey with _ | info <;>
    simp only [burnEventOf, hinfo] at h
  · exact Option.noConfusion h
  · split_ifs at h with h1 h2
    all_goals first
      | exact Option.noConfusion h
      | (obtain rfl := Option.some.inj h
         exact ⟨_, _, rfl⟩)

/-- The full event trace of processWalletCompletely: one discovery, then the
    close submissions of the eligible accounts, then the re-discovery and the
    standalone burn submissions, then the sweep submission when the remaining
    balance is positive. -/
theorem events_processWalletCompletely (L : Ledger) (fp : String) (w : WalletInfo) :
    (processWalletCompletely L fp w).events
      = Event.discoverEv w.publicKey ::
        (((getTokenAccounts (L.discovery w.publicKey) w.publicKey).filter
            (fun a => decide (0 < a.lamports))).map (fun a => closeEvent L a.pubkey fp)
          ++ (Event.discoverEv w.publicKey ::
              (getTokenAccounts (L.discovery w.publicKey) w.publicKey).filterMap
                (burnEventOf L))
          ++ (if 0 < L.getBalance w.publicKey then
                [Event.submitEv .sweepPhase
                  [Instr.transferIx w.publicKey fp (L.getBalance w.publicKey)]
                  (L.submitOk [Instr.transferIx w.publicKey fp (L.getBalance w.publicKey)])]
              else [])) := by
  simp only [processWalletCompletely, burnAllTokens]
  rw [closeStep_fold_events, burnStep_fold_events]
  by_cases hb : 0 < L.getBalance w.publicKey
  · rw [if_pos hb, if_pos hb]
    unfold transferSolToFeePayer
    rw [if_neg (show ¬(L.getBalance w.publicKey = 0) by omega)]
    simp
  · rw [if_neg hb, if_neg hb]
    simp

theorem closingSubmits_append (l1 l2 : List Event) :
    closingSubmits (l1 ++ l2) = closingSubmits l1 ++ closingSubmits l2 := by
  simp [closingSubmits]

theorem sweepSubmits_append (l1 l2 : List Event) :
    sweepSubmits (l1 ++ l2) = sweepSubmits l1 ++ sweepSubmits l2 := by
  simp [sweepSubmits]

theorem closingSubmits_discover_cons (o : String) (l : List Event) :
    closingSubmits (Event.discoverEv o :: l) = closingSubmits l := rfl

theorem sweepSubmits_discover_cons (o : String) (l : List Event) :
    sweepSubmits (Event.discoverEv o :: l) = sweepSubmits l := rfl

theorem closingSubmits_burn_nil (L : Ledger) (accounts : List TokenAccountView) :
    closingSubmits (accounts.filterMap (burnEventOf L)) = [] := by
  rw [closingSubmits, List.filter_eq_nil_iff]
  intro e he
  obtain ⟨a, _, ha⟩ := List.mem_filterMap.mp he
  obtain ⟨ix, ok, rfl⟩ := burnEventOf_shape ha
  simp

theorem sweepSubmits_burn_nil (L : Ledger) (accounts : List TokenAccountView) :
    sweepSubmits (accounts.filterMap (burnEventOf L)) = [] := by
  rw [sweepSubmits, List.filter_eq_nil_iff]
  intro e he
  obtain ⟨a, _, ha⟩ := List.mem_filterMap.mp he
  obtain ⟨ix, ok, rfl⟩ := burnEventOf_shape ha
  simp

theorem closingSubmits_close_self (L : Ledger) (fp : String)
    (l : List TokenAccountView) :
    closingSubmits (l.map (fun a => closeEvent L a.pubkey fp))
      = l.map (fun a => closeEvent L a.pubkey fp) := by
  rw [closingSubmits, List.filter_eq_self]
  intro e he
  obtain ⟨a, _, rfl⟩ := List.mem_map.mp he
  simp [closeEvent]

theorem sweepSubmits_close_nil (L : Ledger) (fp : String)
    (l : List TokenAccountView) :
    sweepSubmits (l.map (fun a => closeEvent L a.pubkey fp)) = [] := by
  rw [sweepSubmits, List.filter_eq_nil_iff]
  intro e he
  obtain ⟨a, _, rfl⟩ := List.mem_map.mp he
  simp [closeEvent]

/-- The close submissions of a wallet run are exactly one per discovered
    token account with positive lamport balance, in discovery order. -/
theorem closingSubmits_processWalletCompletely (L : Ledger) (fp : String) (w : WalletInfo) :
    closingSubmits (processWalletCompletely L fp w).events
      = ((getTokenAccounts (L.discovery w.publicKey) w.publicKey).filter
          (fun a => decide (0 < a.lamports))).map (fun a => closeEvent L a.pubkey fp) := by
  rw [events_processWalletCompletely, closingSubmits_discover_cons,
    closingSubmits_append, closingSubmits_append, closingSubmits_discover_cons,
    closingSubmits_close_self, closingSubmits_burn_nil]
  by_cases hb : 0 < L.getBalance w.publicKey
  · rw [if_pos hb]
    simp [closingSubmits]
  · rw [if_neg hb]
    simp [closingSubmits]

/-- The sweep submission of a wallet run: the full remaining balance is
    transferred exactly when it is positive. -/
theorem sweepSubmits_processWalletCompletely (L : Ledger) (fp : String) (w : WalletInfo) :
    sweepSubmits (processWalletCompletely L fp w).events
      = (if 0 < L.getBalance w.publicKey then
          [Event.submitEv .sweepPhase
            [Instr.transferIx w.publicKey fp (L.getBalance w.publicKey)]
            (L.submitOk [Instr.transferIx w.publicKey fp (L.getBalance w.publicKey)])]
        else []) := by
  rw [events_processWalletCompletely, sweepSubmits_discover_cons,
    sweepSubmits_append, sweepSubmits_append, sweepSubmits_discover_cons,
    sweepSubmits_close_nil, sweepSubmits_burn_nil]
  by_cases hb : 0 < L.getBalance w.publicKey
  · rw [if_pos hb]
    simp [sweepSubmits]
  · rw [if_neg hb]
    simp [sweepSubmits]

/-! ### C1: the summary counts every wallet exactly once -/

theorem processLoop_counts
    (processOne : Nat → WalletInfo → Except String WalletProcessOutcome) :
    ∀ (l : List WalletInfo) (i : Nat) (acc : Nat × Nat × Nat),
      (processLoop processOne i acc l).1 + (processLoop processOne i acc l).2.1
        = acc.1 + acc.2.1 + l.length := by
  intro l
  induction l with
  | nil => intro i acc; simp [processLoop]
  | cons w t ih =>
    intro i acc
    rcases hp : processOne i w with e | r
    · simp only [processLoop, hp]
      rw [ih]
      simp only [List.length_cons]
      omega
    · simp only [processLoop, hp]
      rw [ih]
      simp only [List.length_cons]
      omega

/-- C1: for every wallet list and every per-wallet outcome oracle (so in
    particular whatever per-wallet exceptions occur), processAllWallets
    terminates with a summary in which successfulCollections plus
    failedCollections equals totalWallets, which equals the number of wallets
    in the store. -/
theorem processAllWallets_counts (wallets : List WalletInfo)
    (processOne : Nat → WalletInfo → Except String WalletProcessOutcome) :
    (processAllWalletsCore wallets processOne).successfulCollections
        + (processAllWalletsCore wallets processOne).failedCollections
      = (processAllWalletsCore wallets processOne).totalWallets
    ∧ (processAllWalletsCore wallets processOne).totalWallets = wallets.length := by
  constructor
  · have h := processLoop_counts processOne wallets 0 (0, 0, 0)
    simpa [processAllWalletsCore] using h
  · rfl

/-! ### C4: eligibility is decided solely by a positive lamport balance -/

theorem walletRent_fold (L : Ledger) :
    ∀ (accounts : List TokenAccountView) (acc : Nat × Nat),
      (accounts.foldl (rentStep L) acc).1
        = acc.1 + ((accounts.filter (fun a => decide (0 < a.lamports))).map
            TokenAccountView.lamports).sum := by
  intro accounts
  induction accounts with
  | nil => intro acc; simp
  | cons a t ih =>
    intro acc
    rw [List.foldl_cons]
    by_cases ha : 0 < a.lamports
    · have hstep : rentStep L acc a = (acc.1 + a.lamports, acc.2 + 1) := by
        simp only [rentStep]
        split_ifs with h1
        · rfl
        · simp only [canCloseAccount, decide_eq_true_eq] at h1
          exact absurd ha h1
      rw [hstep, ih]
      simp only [List.filter_cons, ha, decide_true_eq_true, if_true, List.map_cons,
        List.sum_cons]
      omega
    · have hstep : rentStep L acc a = acc := by
        simp only [rentStep]
        split_ifs with h1
        · simp only [canCloseAccount, decide_eq_true_eq] at h1
          exact absurd h1 ha
        · rfl
      rw [hstep, ih]
      have hf : decide (0 < a.lamports) = false := by
        simpa using ha
      simp only [List.filter_cons, hf, Bool.false_eq_true, if_false]

/-- C4: eligibility depends only on the lamport balance being positive, the
    rent-exempt threshold is ignored; an account with balance 0 contributes
    nothing to the aggregated rentAmount and gets no close submission, and an
    account with positive balance contributes its full balance and is always
    attempted for closure. -/
theorem eligibility_positive_balance :
    (∀ (balance re re' : Nat),
        canCloseAccount balance re = decide (0 < balance)
        ∧ canCloseAccount balance re = canCloseAccount balance re'
        ∧ calculateRentAmount balance re = balance)
    ∧ (∀ (L : Ledger) (accounts : List TokenAccountView),
        (walletRentTotals L accounts).1
          = ((accounts.filter (fun a => decide (0 < a.lamports))).map
              TokenAccountView.lamports).sum)
    ∧ (∀ (L : Ledger) (fp : String) (w : WalletInfo),
        closingSubmits (processWalletCompletely L fp w).events
          = ((getTokenAccounts (L.discovery w.publicKey) w.publicKey).filter
              (fun a => decide (0 < a.lamports))).map (fun a => closeEvent L a.pubkey fp)) := by
  refine ⟨fun b re re' => ⟨rfl, rfl, rfl⟩, ?_, ?_⟩
  · intro L accounts
    have h := walletRent_fold L accounts (0, 0)
    simpa [walletRentTotals] using h
  · intro L fp w
    exact closingSubmits_processWalletCompletely L fp w

/-! ### C8: the lamport floor of the pipeline -/

theorem transferStep_fold_events (L : Ledger) (fp : String) :
    ∀ (wallets : List WalletInfo) (n m s : Nat) (evs : List Event),
      (wallets.foldl (transferStep L fp) (n, m, s, evs)).2.2.2
        = evs ++ (wallets.filter solTransferEligible).map
            (fun w => Event.submitEv .sweepPhase
              [Instr.transferIx w.publicKey fp w.balance]
              (L.submitOk [Instr.transferIx w.publicKey fp w.balance])) := by
  intro wallets
  induction wallets with
  | nil => intro n m s evs; simp
  | cons w t ih =>
    intro n m s evs
    rw [List.foldl_cons, List.filter_cons]
    by_cases he : solTransferEligible w = true
    · have hbal : ¬(w.balance = 0) := by
        simp only [solTransferEligible, Bool.and_eq_true, decide_eq_true_eq] at he
        omega
      have hacc : ∃ n2 m2 s2, transferStep L fp (n, m, s, evs) w
          = (n2, m2, s2, evs ++ [Event.submitEv .sweepPhase
              [Instr.transferIx w.publicKey fp w.balance]
              (L.submitOk [Instr.transferIx w.publicKey fp w.balance])]) := by
        simp only [transferStep, he, if_true, transferSolToFeePayer]
        rw [if_neg hbal]
        split_ifs
        · exact ⟨_, _, _, rfl⟩
        · exact ⟨_, _, _, rfl⟩
      obtain ⟨n2, m2, s2, hcs⟩ := hacc
      rw [hcs, ih, he]
      simp
    · have hfalse : solTransferEligible w = false := by
        simpa using he
      have hstep : transferStep L fp (n, m, s, evs) w = (n, m, s, evs) := by
        simp only [transferStep, hfalse, Bool.false_eq_true, if_false]
      rw [hstep, ih, hfalse]
      simp

/-- C8 corrected: in the per-wallet pipeline there is no positive lamport
    floor beyond zero: a token account receives a close submission exactly
    when its discovered lamport balance is positive, and the remaining native
    balance is swept exactly when it is positive.  A 10000-lamport floor
    (the float product 0.00001 * LAMPORTS_PER_SOL) exists only in the
    separate transferSolBalances path, which also skips wallets flagged with
    pending rent. -/
theorem pipeline_minimum_floor :
    (∀ (L : Ledger) (fp : String) (w : WalletInfo),
        closingSubmits (processWalletCompletely L fp w).events
          = ((getTokenAccounts (L.discovery w.publicKey) w.publicKey).filter
              (fun a => decide (0 < a.lamports))).map (fun a => closeEvent L a.pubkey fp)
        ∧ sweepSubmits (processWalletCompletely L fp w).events
          = (if 0 < L.getBalance w.publicKey then
              [Event.submitEv .sweepPhase
                [Instr.transferIx w.publicKey fp (L.getBalance w.publicKey)]
                (L.submitOk [Instr.transferIx w.publicKey fp (L.getBalance w.publicKey)])]
            else []))
    ∧ (∀ (L : Ledger) (fp : String) (wallets : List WalletInfo),
        (transferSolBalances L fp wallets).2.2.2
          = (wallets.filter solTransferEligible).map
              (fun w => Event.submitEv .sweepPhase
                [Instr.transferIx w.publicKey fp w.balance]
                (L.submitOk [Instr.transferIx w.publicKey fp w.balance])))
    ∧ (∀ w : WalletInfo, solTransferEligible w
        = (decide (10000 < w.balance) && (!w.canClose || decide (w.rentAmount = 0)))) := by
  refine ⟨?_, ?_, fun w => rfl⟩
  · intro L fp w
    exact ⟨closingSubmits_processWalletCompletely L fp w,
      sweepSubmits_processWalletCompletely L fp w⟩
  · intro L fp wallets
    have h := transferStep_fold_events L fp wallets 0 0 0 []
    simpa [transferSolBalances] using h

/-- Counterexample for C8 as stated: with a token account holding a single
    lamport and a residual native balance of a single lamport, both far below
    the 10000-lamport floor the source uses in transferSolBalances, the
    per-wallet pipeline still submits the close and sweeps the residue. -/
theorem pipeline_no_floor_counterexample :
    closingSubmits (processWalletCompletely ledger8 "FP" wallet8).events
      = [Event.submitEv .closingPhase [Instr.closeIx "A8" "FP"] true]
    ∧ sweepSubmits (processWalletCompletely ledger8 "FP" wallet8).events
      = [Event.submitEv .sweepPhase [Instr.transferIx "PUB8" "FP" 1] true]
    ∧ solTransferEligible (WalletInfo.mk "sk8" "PUB8" 1 0 0 false) = false :=
  ⟨by decide, by decide, by decide⟩

/-! ### C6: the order of the pipeline phases -/

theorem submittedPhases_append (l1 l2 : List Event) :
    submittedPhases (l1 ++ l2) = submittedPhases l1 ++ submittedPhases l2 := by
  simp [submittedPhases]

theorem submittedPhases_discover_cons (o : String) (l : List Event) :
    submittedPhases (Event.discoverEv o :: l) = submittedPhases l := rfl

theorem submittedPhases_const (p : Phase) :
    ∀ (evs : List Event), (∀ e ∈ evs, ∃ ix ok, e = Event.submitEv p ix ok) →
      submittedPhases evs = List.replicate evs.length p := by
  intro evs
  induction evs with
  | nil => intro _; rfl
  | cons e t ih =>
    intro h
    obtain ⟨ix, ok, rfl⟩ := h e (List.mem_cons_self _ _)
    have ht := ih (fun x hx => h x (List.mem_cons_of_mem _ hx))
    simp only [submittedPhases, List.filterMap_cons] at ht ⊢
    rw [List.length_cons, List.replicate_succ]
    exact congrArg (List.cons p) ht

theorem closeInstrs_shape (L : Ledger) (acct dest : String) :
    ∃ pre, closeInstrs L acct dest = pre ++ [Instr.closeIx acct dest]
      ∧ ∀ i ∈ pre, ∃ a m n, i = Instr.burnIx a m n := by
  simp only [closeInstrs]
  split_ifs with h
  · refine ⟨[Instr.burnIx acct _ _], rfl, ?_⟩
    intro i hi
    simp only [List.mem_singleton] at hi
    subst hi
    exact ⟨_, _, _, rfl⟩
  · exact ⟨[], rfl, by simp⟩

/-- C6 corrected: every close transaction carries the burn of the remaining
    token amount before its close instruction, but the phase order of the
    pipeline is Discovering, Closing, (re-)Discovering, standalone Burning,
    Sweeping: every close submission precedes every standalone burn
    submission, which precedes the sweep submission (of which there is at
    most one); the standalone burn phase runs after the closing phase, not
    before it. -/
theorem processWallet_phase_order (L : Ledger) (fp : String) (w : WalletInfo) :
    (∃ nC nB nS, submittedPhases (processWalletCompletely L fp w).events
        = List.replicate nC Phase.closingPhase ++ List.replicate nB Phase.burnPhase
          ++ List.replicate nS Phase.sweepPhase ∧ nS ≤ 1)
    ∧ (∀ (instrs : List Instr) (ok : Bool),
        Event.submitEv .closingPhase instrs ok ∈ (processWalletCompletely L fp w).events →
        ∃ pre acct, instrs = pre ++ [Instr.closeIx acct fp]
          ∧ ∀ i ∈ pre, ∃ a m n, i = Instr.burnIx a m n) := by
  constructor
  · have hclose := submittedPhases_const Phase.closingPhase
      (((getTokenAccounts (L.discovery w.publicKey) w.publicKey).filter
          (fun a => decide (0 < a.lamports))).map (fun a => closeEvent L a.pubkey fp))
      (by
        intro e he
        obtain ⟨a, _, rfl⟩ := List.mem_map.mp he
        exact ⟨_, _, rfl⟩)
    have hburn := submittedPhases_const Phase.burnPhase
      ((getTokenAccounts (L.discovery w.publicKey) w.publicKey).filterMap (burnEventOf L))
      (by
        intro e he
        obtain ⟨a, _, ha⟩ := List.mem_filterMap.mp he
        exact burnEventOf_shape ha)
    refine ⟨((getTokenAccounts (L.discovery w.publicKey) w.publicKey).filter
        (fun a => decide (0 < a.lamports))).length,
      ((getTokenAccounts (L.discovery w.publicKey) w.publicKey).filterMap
        (burnEventOf L)).length,
      if 0 < L.getBalance w.publicKey then 1 else 0, ?_, by split_ifs <;> omega⟩
    rw [events_processWalletCompletely, submittedPhases_discover_cons,
      submittedPhases_append, submittedPhases_append, submittedPhases_discover_cons,
      hclose, hburn, List.length_map]
    by_cases hb : 0 < L.getBalance w.publicKey
    · rw [if_pos hb, if_pos hb]
      rfl
    · rw [if_neg hb, if_neg hb]
      rfl
  · intro instrs ok hmem
    rw [events_processWalletCompletely] at hmem
    rcases List.mem_cons.mp hmem with h | hmem2
    · exact absurd h (by simp)
    rcases List.mem_append.mp hmem2 with hCB | hsw
    · rcases List.mem_append.mp hCB with h | h
      · obtain ⟨a, _, heq⟩ := List.mem_map.mp h
        have hinstr : instrs = closeInstrs L a.pubkey fp := by
          have h2 := heq
          simp only [closeEvent, Event.submitEv.injEq] at h2
          exact h2.2.1.symm
        obtain ⟨pre, hpre, hall⟩ := closeInstrs_shape L a.pubkey fp
        exact ⟨pre, a.pubkey, hinstr.trans hpre, hall⟩
      · rcases List.mem_cons.mp h with h2 | h2
        · exact absurd h2 (by simp)
        · obtain ⟨a, _, ha⟩ := List.mem_filterMap.mp h2
          obtain ⟨ix, ok2, heq⟩ := burnEventOf_shape ha
          simp only [Event.submitEv.injEq] at heq
          exact absurd heq.1 (by simp)
    · by_cases hb : 0 < L.getBalance w.publicKey
      · rw [if_pos hb] at hsw
        have h2 := List.mem_singleton.mp hsw
        simp only [Event.submitEv.injEq] at h2
        exact absurd h2.1 (by simp)
      · rw [if_neg hb] at hsw
        exact absurd hsw (List.not_mem_nil _)

/-- Witness for C6: in a run where account A6 still holds 5 tokens, the close
    transaction of A6 carries the burn instruction right before the close
    instruction. -/
theorem processWallet_phase_order_witness :
    (Event.submitEv .closingPhase
        [Instr.burnIx "A6" "M6" 5, Instr.closeIx "A6" "FP"] true
      ∈ (processWalletCompletely ledger6w "FP" wallet6).events)
    ∧ (∃ pre acct, [Instr.burnIx "A6" "M6" 5, Instr.closeIx "A6" "FP"]
        = pre ++ [Instr.closeIx acct "FP"]
        ∧ ∀ i ∈ pre, ∃ a m n, i = Instr.burnIx a m n) :=
  ⟨by decide,
   (processWallet_phase_order ledger6w "FP" wallet6).2
     [Instr.burnIx "A6" "M6" 5, Instr.closeIx "A6" "FP"] true (by decide)⟩

/-- Counterexample for C6 as stated: when the close transaction of account A6
    fails, the standalone burn pass of burnAllTokens submits a burn after the
    closing phase, so the submission phases of the run are closing first and
    burning second, not burning before closing. -/
theorem phase_order_counterexample :
    submittedPhases (processWalletCompletely ledger6 "FP" wallet6).events
      = [Phase.closingPhase, Phase.burnPhase] := by
  decide

/-! ### C5: a failed sweep is swallowed, not counted as a failed wallet -/

theorem processLoop_all_ok (f : WalletInfo → WalletProcessOutcome) :
    ∀ (l : List WalletInfo) (i : Nat) (acc : Nat × Nat × Nat),
      processLoop (fun _ w => .ok (f w)) i acc l
        = (acc.1 + l.length, acc.2.1,
           acc.2.2 + (l.map (fun w => (f w).totalRecovered)).sum) := by
  intro l
  induction l with
  | nil => intro i acc; simp [processLoop]
  | cons w t ih =>
    intro i acc
    rw [show processLoop (fun _ w2 => Except.ok (f w2)) i acc (w :: t)
        = processLoop (fun _ w2 => Except.ok (f w2)) (i + 1)
            (acc.1 + 1, acc.2.1, acc.2.2 + (f w).totalRecovered) t from rfl]
    rw [ih]
    simp only [List.map_cons, List.sum_cons, List.length_cons, Prod.mk.injEq]
    exact ⟨by omega, trivial, by omega⟩

/-- C5 corrected: a wallet whose sweep submission fails with a non-rate-limit
    error ends with solTransferred 0, but processWalletCompletely returns
    normally, so the wallet is still counted as successful: over the ledger
    model failedCollections is always 0, successfulCollections equals the
    wallet count, and the total aggregates every per-wallet recovered amount,
    so the results of the other wallets stay present and correctly summed. -/
theorem sweep_failure_swallowed (L : Ledger) (fp : String) (wallets : List WalletInfo)
    (w : WalletInfo)
    (hfail : L.submitOk [Instr.transferIx w.publicKey fp (L.getBalance w.publicKey)]
      = false) :
    (processWalletCompletely L fp w).solTransferred = 0
    ∧ (processAllWallets L fp wallets).failedCollections = 0
    ∧ (processAllWallets L fp wallets).successfulCollections = wallets.length
    ∧ (processAllWallets L fp wallets).totalRentCollected
        = (wallets.map (fun x => (processWalletCompletely L fp x).totalRecovered)).sum := by
  refine ⟨?_, ?_, ?_, ?_⟩
  · simp only [processWalletCompletely]
    by_cases hb : 0 < L.getBalance w.publicKey
    · rw [if_pos hb]
      simp only [transferSolToFeePayer]
      rw [if_neg (show ¬(L.getBalance w.publicKey = 0) by omega), hfail]
      simp
    · rw [if_neg hb]
      simp
  · simp [processAllWallets, processAllWalletsCore, processLoop_all_ok]
  · simp [processAllWallets, processAllWalletsCore, processLoop_all_ok]
  · simp [processAllWallets, processAllWalletsCore, processLoop_all_ok]

/-- Witness for C5 at the concrete two-wallet ledger where the sweep of
    wallet Y fails. -/
theorem sweep_failure_swallowed_witness :
    (ledger5.submitOk [Instr.transferIx walletY5.publicKey "FEEPAYER"
        (ledger5.getBalance walletY5.publicKey)] = false)
    ∧ (processWalletCompletely ledger5 "FEEPAYER" walletY5).solTransferred = 0
    ∧ (processAllWallets ledger5 "FEEPAYER" [walletX5, walletY5]).failedCollections = 0 := by
  have h := sweep_failure_swallowed ledger5 "FEEPAYER" [walletX5, walletY5] walletY5
    (by decide)
  exact ⟨by decide, h.1, h.2.1⟩

/-- Counterexample for C5 as stated: wallet Y has a failed sweep submission
    (a non-rate-limit submission error), yet the summary reports
    failedCollections 0 and counts both wallets as successful, with wallet X
    aggregated at its full 500000 lamports. -/
theorem sweep_failure_counterexample :
    (processAllWallets ledger5 "FEEPAYER" [walletX5, walletY5]).failedCollections = 0
    ∧ (processAllWallets ledger5 "FEEPAYER" [walletX5, walletY5]).successfulCollections = 2
    ∧ (processAllWallets ledger5 "FEEPAYER" [walletX5, walletY5]).totalRentCollected
        = 500000
    ∧ sweepSubmits (processWalletCompletely ledger5 "FEEPAYER" walletY5).events
        = [Event.submitEv .sweepPhase [Instr.transferIx "PUBY" "FEEPAYER" 300000] false] :=
  ⟨by decide, by decide, by decide, by decide⟩

end SRC
